import Mathlib

/-!
Verification of the primitive-root-of-unity registry of titan-crypt
(`pkg/titan-crypt/field`, roots file), over a shallow embedding of its Go
source.  Base field elements are canonical representatives in `[0, p)`,
embedded as `Nat`; the fallible registry operations return `Except`.
-/

set_option maxRecDepth 4000

namespace TitanCrypt

/-- The Goldilocks prime `p = 2^64 - 2^32 + 1`, the base field modulus. -/
def p : Nat := 18446744069414584321

/-- Modelled from the spec: the additive identity `Zero` of the base field
(the base field `Element` implementation is outside the excerpt). -/
def Zero : Nat := 0

/-- Modelled from the spec: the multiplicative identity `One` of the base
field. -/
def One : Nat := 1

/-- Modelled from the spec: "Construction from raw integer: maps any 64-bit
unsigned integer to its residue mod p"; this is `field.NewFromRaw`. -/
def NewFromRaw (x : Nat) : Nat := x % p

/-- Modelled from the spec: `Mul` is exact modular multiplication in the
base field, always returning the canonical representative. -/
def Mul (a b : Nat) : Nat := a * b % p

/-- Helper for `ModPow`: square-and-multiply with an explicit 64-bit fuel
(the Go loop halves a `uint64` exponent, so 64 iterations always suffice). -/
def modPowAux : Nat → Nat → Nat → Nat
  | 0, _, _ => 1
  | fuel + 1, b, e =>
    if e = 0 then 1
    else
      let r := modPowAux fuel (b * b % p) (e / 2)
      if e % 2 = 1 then r * b % p else r

/-- Modelled from the spec: `Element.ModPow` is "modular exponentiation by
repeated squaring" with a 64-bit unsigned exponent. -/
def ModPow (b e : Nat) : Nat := modPowAux 64 b e

/-- Modelled from the spec: `Inverse` is the multiplicative inverse "via
exponentiation to p−2 (the little theorem of Fermat)". -/
def Inverse (a : Nat) : Nat := ModPow a (p - 2)

/-- Error values of the registry, one per distinct `fmt.Errorf` message in
the Go source. -/
inductive FieldError where
  | orderZero : FieldError
  | notPowerOfTwo : Nat → FieldError
  | rootNotFound : Nat → FieldError
  | generationNotImplemented : Nat → FieldError
  | nNotLessThanOrder : FieldError
deriving DecidableEq, Repr

/-- The literal entries of the Go map `PrimitiveRoots` (field/roots file). -/
def PrimitiveRootsList : List (Nat × Nat) :=
  [(0, 1),
   (1, 1),
   (2, 18446744069414584320),
   (4, 281474976710656),
   (8, 18446744069397807105),
   (16, 17293822564807737345),
   (32, 70368744161280),
   (64, 549755813888),
   (128, 17870292113338400769),
   (256, 13797081185216407910),
   (512, 1803076106186727246),
   (1024, 11353340290879379826),
   (2048, 455906449640507599),
   (4096, 17492915097719143606),
   (8192, 1532612707718625687),
   (16384, 16207902636198568418),
   (32768, 17776499369601055404),
   (65536, 6115771955107415310),
   (131072, 12380578893860276750),
   (262144, 9306717745644682924),
   (524288, 18146160046829613826),
   (1048576, 3511170319078647661),
   (2097152, 17654865857378133588),
   (4194304, 5416168637041100469),
   (8388608, 16905767614792059275),
   (16777216, 9713644485405565297),
   (33554432, 5456943929260765144),
   (67108864, 17096174751763063430),
   (134217728, 1213594585890690845),
   (268435456, 6414415596519834757),
   (536870912, 16116352524544190054),
   (1073741824, 9123114210336311365),
   (2147483648, 4614640910117430873),
   (4294967296, 1753635133440165772)]

/-- Lookup in the Go map `PrimitiveRoots` (`root, exists := PrimitiveRoots[order]`). -/
def PrimitiveRoots (order : Nat) : Option Nat :=
  (PrimitiveRootsList.find? (fun kv => kv.fst == order)).map (fun kv => kv.snd)

/-- `field.GetPrimitiveRoot` from the Go source: rejects order zero, rejects
non-powers of two via `order&(order-1) != 0`, then looks the order up in the
table. -/
def GetPrimitiveRoot (order : Nat) : Except FieldError Nat :=
  if order = 0 then .error .orderZero
  else if order &&& (order - 1) ≠ 0 then .error (.notPowerOfTwo order)
  else
    match PrimitiveRoots order with
    | some root => .ok (NewFromRaw root)
    | none => .error (.rootNotFound order)

/-- `field.PrimitiveRootOfUnity` from the Go source: convenience wrapper
returning `Zero` whenever `GetPrimitiveRoot` fails. -/
def PrimitiveRootOfUnity (order : Nat) : Nat :=
  match GetPrimitiveRoot order with
  | .ok root => root
  | .error _ => Zero

/-- `field.IsPrimitiveRootOfUnity` from the Go source. -/
def IsPrimitiveRootOfUnity (element : Nat) (order : Nat) : Bool :=
  if order = 0 then false
  else if order &&& (order - 1) ≠ 0 then false
  else if ModPow element order ≠ One then false
  else if 1 < order then
    if ModPow element (order / 2) = One then false else true
  else true

/-- `field.GeneratePrimitiveRoot` from the Go source: identical checks and
table lookup as `GetPrimitiveRoot`, but ends in a "generation not
implemented" error for orders missing from the table. -/
def GeneratePrimitiveRoot (order : Nat) : Except FieldError Nat :=
  if order = 0 then .error .orderZero
  else if order &&& (order - 1) ≠ 0 then .error (.notPowerOfTwo order)
  else
    match PrimitiveRoots order with
    | some root => .ok (NewFromRaw root)
    | none => .error (.generationNotImplemented order)

/-- `field.GetInversePrimitiveRoot` from the Go source. -/
def GetInversePrimitiveRoot (order : Nat) : Except FieldError Nat :=
  match GetPrimitiveRoot order with
  | .error e => .error e
  | .ok root => .ok (Inverse root)

/-- `field.GetNthRootOfUnity` from the Go source: the `n < order` range check
runs before the lookup. -/
def GetNthRootOfUnity (order : Nat) (n : Nat) : Except FieldError Nat :=
  if order ≤ n then .error .nNotLessThanOrder
  else
    match GetPrimitiveRoot order with
    | .error e => .error e
    | .ok root => .ok (ModPow root n)

/-- `field.GetInverseNthRootOfUnity` from the Go source. -/
def GetInverseNthRootOfUnity (order : Nat) (n : Nat) : Except FieldError Nat :=
  match GetNthRootOfUnity order n with
  | .error e => .error e
  | .ok root => .ok (Inverse root)

/-! ### Arithmetic lemmas about the embedded operations -/

theorem one_lt_p : 1 < p := by norm_num [p]

theorem modPowAux_eq (fuel : Nat) :
    ∀ b e, e < 2 ^ fuel → modPowAux fuel b e = b ^ e % p := by
  induction fuel with
  | zero =>
    intro b e he
    have h0 : e = 0 := by simpa using he
    subst h0
    simp [modPowAux, Nat.mod_eq_of_lt one_lt_p]
  | succ fuel ih =>
    intro b e he
    by_cases h0 : e = 0
    · subst h0
      simp [modPowAux, Nat.mod_eq_of_lt one_lt_p]
    · have hdiv : e / 2 < 2 ^ fuel := by
        have h2 : 2 ^ (fuel + 1) = 2 ^ fuel * 2 := Nat.pow_succ 2 fuel
        omega
      have hr := ih (b * b % p) (e / 2) hdiv
      have hbb : (b * b % p) ^ (e / 2) % p = b ^ (2 * (e / 2)) % p := by
        rw [← Nat.pow_mod, ← Nat.pow_two, ← Nat.pow_mul]
      rw [modPowAux, if_neg h0]
      by_cases hodd : e % 2 = 1
      · have he2 : e = 2 * (e / 2) + 1 := by omega
        simp only [hodd, hr, hbb, if_true]
        conv_rhs => rw [he2]
        rw [Nat.pow_succ, Nat.mod_mul_mod]
      · have he2 : e = 2 * (e / 2) := by omega
        simp only [if_neg hodd, hr, hbb]
        rw [← he2]

theorem ModPow_eq (b e : Nat) (he : e < 2 ^ 64) : ModPow b e = b ^ e % p :=
  modPowAux_eq 64 b e he

/-- For nonzero `n`, the C-style test `n&(n-1) == 0` used by the Go code is
exactly "n is a power of two". -/
theorem land_pred_eq_zero_iff {n : Nat} (hn : n ≠ 0) :
    n &&& (n - 1) = 0 ↔ ∃ k, n = 2 ^ k := by
  constructor
  · intro h
    refine ⟨n.log2, ?_⟩
    by_contra hne
    have hlo : 2 ^ n.log2 ≤ n := Nat.log2_self_le hn
    have hhi : n < 2 ^ (n.log2 + 1) := Nat.lt_log2_self
    have hlt : 2 ^ n.log2 < n := lt_of_le_of_ne hlo (fun h' => hne h'.symm)
    have hbit : ∀ x : Nat, 2 ^ n.log2 ≤ x → x < 2 ^ (n.log2 + 1) →
        x.testBit n.log2 = true := by
      intro x hxl hxh
      rw [Nat.testBit_to_div_mod]
      have hpos : 0 < 2 ^ n.log2 := Nat.pos_pow_of_pos _ (by omega)
      have hdle : 1 ≤ x / 2 ^ n.log2 := (Nat.le_div_iff_mul_le hpos).mpr (by omega)
      have hdlt : x / 2 ^ n.log2 < 2 := by
        rw [Nat.div_lt_iff_lt_mul hpos]
        calc x < 2 ^ (n.log2 + 1) := hxh
        _ = 2 * 2 ^ n.log2 := by rw [Nat.pow_succ]; ring
      have : x / 2 ^ n.log2 = 1 := by omega
      simp [this]
    have hb1 : n.testBit n.log2 = true := hbit n hlo hhi
    have hb2 : (n - 1).testBit n.log2 = true := hbit (n - 1) (by omega) (by omega)
    have : (n &&& (n - 1)).testBit n.log2 = true := by
      rw [Nat.testBit_and, hb1, hb2]; rfl
    rw [h] at this
    simp at this
  · rintro ⟨k, rfl⟩
    have : (2 : Nat) ^ k - 1 = 2 ^ k - 1 := rfl
    rw [Nat.and_pow_two_sub_one_eq_mod]
    exact Nat.mod_self _

/-! ### Facts about the precomputed table, checked by evaluation -/

theorem table_keys_le : ∀ kv ∈ PrimitiveRootsList, kv.1 ≤ 2 ^ 32 := by decide

theorem table_roots_valid :
    ∀ kv ∈ PrimitiveRootsList, kv.1 ≠ 0 →
      IsPrimitiveRootOfUnity (NewFromRaw kv.2) kv.1 = true := by decide

theorem table_inverse_valid :
    ∀ kv ∈ PrimitiveRootsList, kv.1 ≠ 0 →
      Mul (Inverse (NewFromRaw kv.2)) (NewFromRaw kv.2) = One := by decide

theorem table_roots_ne_zero :
    ∀ kv ∈ PrimitiveRootsList, NewFromRaw kv.2 ≠ Zero := by decide

theorem table_pow2_present :
    ∀ k : Fin 33, (PrimitiveRoots (2 ^ (k : Nat))).isSome = true := by decide

theorem lookup_mem {order root : Nat} (h : PrimitiveRoots order = some root) :
    (order, root) ∈ PrimitiveRootsList := by
  unfold PrimitiveRoots at h
  cases hf : PrimitiveRootsList.find? (fun kv => kv.fst == order) with
  | none => rw [hf] at h; simp at h
  | some kv =>
    rw [hf] at h
    simp only [Option.map, Option.some.injEq] at h
    have hmem := List.mem_of_find?_eq_some hf
    have hp : kv.fst = order := by simpa using List.find?_some hf
    obtain ⟨k1, k2⟩ := kv
    simp only at hp h
    rw [← hp, ← h]
    exact hmem

/-! ### Success/failure characterization of the two lookup entry points -/

theorem getPrimitiveRoot_ok_iff (order r : Nat) :
    GetPrimitiveRoot order = .ok r ↔
      order ≠ 0 ∧ order &&& (order - 1) = 0 ∧
        ∃ root, PrimitiveRoots order = some root ∧ r = NewFromRaw root := by
  unfold GetPrimitiveRoot
  by_cases h0 : order = 0
  · simp [h0]
  · rw [if_neg h0]
    by_cases h1 : order &&& (order - 1) = 0
    · rw [if_neg (by simpa using h1)]
      cases h : PrimitiveRoots order with
      | some root => simp [h0, h1, h, eq_comm]
      | none => simp [h0, h1, h]
    · rw [if_pos (by simpa using h1)]
      simp [h0, h1]

theorem generatePrimitiveRoot_ok_iff (order r : Nat) :
    GeneratePrimitiveRoot order = .ok r ↔
      order ≠ 0 ∧ order &&& (order - 1) = 0 ∧
        ∃ root, PrimitiveRoots order = some root ∧ r = NewFromRaw root := by
  unfold GeneratePrimitiveRoot
  by_cases h0 : order = 0
  · simp [h0]
  · rw [if_neg h0]
    by_cases h1 : order &&& (order - 1) = 0
    · rw [if_neg (by simpa using h1)]
      cases h : PrimitiveRoots order with
      | some root => simp [h0, h1, h, eq_comm]
      | none => simp [h0, h1, h]
    · rw [if_pos (by simpa using h1)]
      simp [h0, h1]

theorem table_keys_pow2 :
    ∀ kv ∈ PrimitiveRootsList, kv.1 ≠ 0 → kv.1 &&& (kv.1 - 1) = 0 := by decide

theorem lookup_none_of_gt {order : Nat} (hgt : 2 ^ 32 < order) :
    PrimitiveRoots order = none := by
  have hfind : PrimitiveRootsList.find? (fun kv => kv.fst == order) = none := by
    rw [List.find?_eq_none]
    intro kv hkv hbeq
    have heq : kv.fst = order := by simpa using hbeq
    have hle := table_keys_le kv hkv
    exact absurd (heq ▸ hle) (not_le.mpr hgt)
  unfold PrimitiveRoots
  rw [hfind]
  rfl

theorem getPrimitiveRoot_pow2_le_ok {order : Nat} (hpow : ∃ k, order = 2 ^ k)
    (hle : order ≤ 2 ^ 32) :
    ∃ root, PrimitiveRoots order = some root ∧
      GetPrimitiveRoot order = .ok (NewFromRaw root) := by
  obtain ⟨k, rfl⟩ := hpow
  have hk : k ≤ 32 := (Nat.pow_le_pow_iff_right (by norm_num)).mp hle
  have hsome : (PrimitiveRoots (2 ^ k)).isSome = true :=
    table_pow2_present ⟨k, by omega⟩
  obtain ⟨root, hroot⟩ := Option.isSome_iff_exists.mp hsome
  have h0 : (2 : Nat) ^ k ≠ 0 := (Nat.pos_pow_of_pos k (by norm_num)).ne'
  have hland : (2 : Nat) ^ k &&& (2 ^ k - 1) = 0 :=
    (land_pred_eq_zero_iff h0).mpr ⟨k, rfl⟩
  exact ⟨root, hroot,
    (getPrimitiveRoot_ok_iff _ _).mpr ⟨h0, hland, root, hroot, rfl⟩⟩

theorem getPrimitiveRoot_pow2_gt_err {order : Nat} (hpow : ∃ k, order = 2 ^ k)
    (hgt : 2 ^ 32 < order) :
    GetPrimitiveRoot order = .error (.rootNotFound order) := by
  obtain ⟨k, rfl⟩ := hpow
  have h0 : (2 : Nat) ^ k ≠ 0 := (Nat.pos_pow_of_pos k (by norm_num)).ne'
  have hland : (2 : Nat) ^ k &&& (2 ^ k - 1) = 0 :=
    (land_pred_eq_zero_iff h0).mpr ⟨k, rfl⟩
  unfold GetPrimitiveRoot
  rw [if_neg h0, if_neg (not_not_intro hland), lookup_none_of_gt hgt]

theorem getPrimitiveRoot_npot_err {order : Nat} (h0 : order ≠ 0)
    (hnp : ¬ ∃ k, order = 2 ^ k) :
    GetPrimitiveRoot order = .error (.notPowerOfTwo order) := by
  have hland : order &&& (order - 1) ≠ 0 := fun hz =>
    hnp ((land_pred_eq_zero_iff h0).mp hz)
  unfold GetPrimitiveRoot
  rw [if_neg h0, if_pos hland]

/-! ### Claim theorems -/

/-- Claim C1: every order on which `GetPrimitiveRoot` succeeds yields a root
`r` that is a primitive root of unity of exactly that order: `r ^ order ≡ 1`
mod `p`, `r ^ (order / 2) ≢ 1` when `order > 1`, and the validator of the code itself,
`IsPrimitiveRootOfUnity` accepts the pair. -/
theorem c1_getPrimitiveRoot_returns_valid_root (order r : Nat)
    (h : GetPrimitiveRoot order = .ok r) :
    IsPrimitiveRootOfUnity r order = true ∧
      r ^ order % p = 1 ∧ (1 < order → r ^ (order / 2) % p ≠ 1) := by
  obtain ⟨h0, hland, root, hlook, hr⟩ := (getPrimitiveRoot_ok_iff order r).mp h
  have hmem := lookup_mem hlook
  have hvalid := table_roots_valid _ hmem h0
  subst hr
  have hle : order ≤ 2 ^ 32 := table_keys_le _ hmem
  have h64 : order < 2 ^ 64 := by
    have : (2 : Nat) ^ 32 < 2 ^ 64 := by norm_num
    omega
  have hhalf64 : order / 2 < 2 ^ 64 := by omega
  unfold IsPrimitiveRootOfUnity at hvalid
  rw [if_neg h0, if_neg (not_not_intro hland)] at hvalid
  have hpow1 : ModPow (NewFromRaw root) order = One := by
    by_contra hne
    rw [if_pos hne] at hvalid
    exact absurd hvalid (by simp)
  rw [if_neg (not_not_intro hpow1)] at hvalid
  have hpow2 : 1 < order → ModPow (NewFromRaw root) (order / 2) ≠ One := by
    intro hgt hne2
    rw [if_pos hgt, if_pos hne2] at hvalid
    exact absurd hvalid (by simp)
  refine ⟨table_roots_valid _ hmem h0, ?_, ?_⟩
  · rw [← ModPow_eq _ _ h64]
    exact hpow1
  · intro hgt
    rw [← ModPow_eq _ _ hhalf64]
    exact hpow2 hgt

theorem c1_witness :
    IsPrimitiveRootOfUnity 18446744069414584320 2 = true ∧
      18446744069414584320 ^ 2 % p = 1 :=
  ⟨(c1_getPrimitiveRoot_returns_valid_root 2 18446744069414584320 rfl).1,
   (c1_getPrimitiveRoot_returns_valid_root 2 18446744069414584320 rfl).2.1⟩

/-- Claim C3: `GetPrimitiveRoot` fails with the zero-order domain error on
order 0, with the power-of-two domain error on nonzero non-powers of two,
with the not-found error on powers of two above `2^32`, and succeeds with the
table entry on every power of two between 1 and `2^32`. -/
theorem c3_getPrimitiveRoot_classification (order : Nat) :
    (order = 0 → GetPrimitiveRoot order = .error .orderZero) ∧
    (order ≠ 0 → (¬ ∃ k, order = 2 ^ k) →
      GetPrimitiveRoot order = .error (.notPowerOfTwo order)) ∧
    ((∃ k, order = 2 ^ k) → 2 ^ 32 < order →
      GetPrimitiveRoot order = .error (.rootNotFound order)) ∧
    ((∃ k, order = 2 ^ k) → order ≤ 2 ^ 32 →
      ∃ root, PrimitiveRoots order = some root ∧
        GetPrimitiveRoot order = .ok (NewFromRaw root)) := by
  refine ⟨?_, ?_, ?_, ?_⟩
  · intro h0; subst h0; rfl
  · exact fun h0 hnp => getPrimitiveRoot_npot_err h0 hnp
  · exact fun hpow hgt => getPrimitiveRoot_pow2_gt_err hpow hgt
  · exact fun hpow hle => getPrimitiveRoot_pow2_le_ok hpow hle

theorem c3_witness :
    GetPrimitiveRoot 0 = .error .orderZero ∧
    GetPrimitiveRoot 12 = .error (.notPowerOfTwo 12) ∧
    GetPrimitiveRoot 8589934592 = .error (.rootNotFound 8589934592) ∧
    (∃ root, PrimitiveRoots 8 = some root ∧
      GetPrimitiveRoot 8 = .ok (NewFromRaw root)) := by
  have hnp : ¬ ∃ k, (12 : Nat) = 2 ^ k := by
    rintro ⟨k, hk⟩
    rcases Nat.lt_or_ge k 4 with h | h
    · interval_cases k <;> norm_num at hk
    · have h16 : (2 : Nat) ^ 4 ≤ 2 ^ k := Nat.pow_le_pow_right (by norm_num) h
      rw [← hk] at h16
      norm_num at h16
  exact ⟨(c3_getPrimitiveRoot_classification 0).1 rfl,
    (c3_getPrimitiveRoot_classification 12).2.1 (by norm_num) hnp,
    (c3_getPrimitiveRoot_classification 8589934592).2.2.1 ⟨33, rfl⟩ (by norm_num),
    (c3_getPrimitiveRoot_classification 8).2.2.2 ⟨3, rfl⟩ (by norm_num)⟩

/-- Claim C5: for every supported order (a power of two with
`1 ≤ order ≤ 2^32`) and every `n < order`, `GetNthRootOfUnity` succeeds and
returns the primitive root raised to the `n`-th power; for `n ≥ order` it
fails with the range error. -/
theorem c5_getNthRootOfUnity_spec (order n : Nat) (hpow : ∃ k, order = 2 ^ k)
    (hle : order ≤ 2 ^ 32) :
    (n < order → ∃ r, GetPrimitiveRoot order = .ok r ∧
      GetNthRootOfUnity order n = .ok (ModPow r n)) ∧
    (order ≤ n → GetNthRootOfUnity order n = .error .nNotLessThanOrder) := by
  constructor
  · intro hn
    obtain ⟨root, _, hok⟩ := getPrimitiveRoot_pow2_le_ok hpow hle
    refine ⟨NewFromRaw root, hok, ?_⟩
    unfold GetNthRootOfUnity
    rw [if_neg (by omega), hok]
  · intro hge
    unfold GetNthRootOfUnity
    rw [if_pos hge]

theorem c5_witness :
    (∃ r, GetPrimitiveRoot 4 = .ok r ∧
      GetNthRootOfUnity 4 2 = .ok (ModPow r 2)) ∧
    GetNthRootOfUnity 4 7 = .error .nNotLessThanOrder :=
  ⟨(c5_getNthRootOfUnity_spec 4 2 ⟨2, rfl⟩ (by norm_num)).1 (by norm_num),
   (c5_getNthRootOfUnity_spec 4 7 ⟨2, rfl⟩ (by norm_num)).2 (by norm_num)⟩

/-- Claim C6: `GetInversePrimitiveRoot` succeeds exactly when
`GetPrimitiveRoot` succeeds (propagating the identical error otherwise), and
on success the product of the two results is `One` in the base field. -/
theorem c6_getInversePrimitiveRoot_spec (order : Nat) :
    (∀ e, GetInversePrimitiveRoot order = .error e ↔
      GetPrimitiveRoot order = .error e) ∧
    (∀ r ir, GetPrimitiveRoot order = .ok r →
      GetInversePrimitiveRoot order = .ok ir → Mul ir r = One) := by
  constructor
  · intro e
    unfold GetInversePrimitiveRoot
    cases h : GetPrimitiveRoot order <;> simp [h]
  · intro r ir hok hinv
    unfold GetInversePrimitiveRoot at hinv
    rw [hok] at hinv
    have hir : ir = Inverse r := by
      simpa [eq_comm] using hinv
    obtain ⟨h0, _, root, hlook, hr⟩ := (getPrimitiveRoot_ok_iff order r).mp hok
    subst hir
    subst hr
    exact table_inverse_valid (order, root) (lookup_mem hlook) h0

theorem c6_witness :
    ∃ ir, GetInversePrimitiveRoot 4 = .ok ir ∧
      Mul ir (NewFromRaw 281474976710656) = One :=
  ⟨Inverse (NewFromRaw 281474976710656), rfl,
    (c6_getInversePrimitiveRoot_spec 4).2 (NewFromRaw 281474976710656) _ rfl rfl⟩

/-- Claim C7 (amended): `GeneratePrimitiveRoot` fails with the
not-implemented error on every power of two above `2^32` (no derivation is
attempted), succeeds with the precomputed root for every nonzero order in the
table, and rejects order 0 with the zero-order domain error even though the
table has an (unreachable) entry for key 0. -/
theorem c7_generatePrimitiveRoot_amended (order : Nat) :
    ((∃ k, order = 2 ^ k) → 2 ^ 32 < order →
      GeneratePrimitiveRoot order = .error (.generationNotImplemented order)) ∧
    (∀ root, order ≠ 0 → PrimitiveRoots order = some root →
      GeneratePrimitiveRoot order = .ok (NewFromRaw root)) ∧
    (order = 0 → GeneratePrimitiveRoot order = .error .orderZero) := by
  refine ⟨?_, ?_, ?_⟩
  · rintro ⟨k, rfl⟩ hgt
    have h0 : (2 : Nat) ^ k ≠ 0 := (Nat.pos_pow_of_pos k (by norm_num)).ne'
    have hland : (2 : Nat) ^ k &&& (2 ^ k - 1) = 0 :=
      (land_pred_eq_zero_iff h0).mpr ⟨k, rfl⟩
    unfold GeneratePrimitiveRoot
    rw [if_neg h0, if_neg (not_not_intro hland), lookup_none_of_gt hgt]
  · intro root h0 hlook
    have hland := table_keys_pow2 _ (lookup_mem hlook) h0
    exact (generatePrimitiveRoot_ok_iff _ _).mpr ⟨h0, hland, root, hlook, rfl⟩
  · intro h0; subst h0; rfl

/-- Claim C7 counterexample: order 0 has a table entry, yet
`GeneratePrimitiveRoot 0` does not succeed with it — it fails with the
zero-order domain error. -/
theorem c7_counterexample :
    PrimitiveRoots 0 = some 1 ∧
      GeneratePrimitiveRoot 0 = .error .orderZero := ⟨rfl, rfl⟩

theorem c7_witness :
    GeneratePrimitiveRoot 8589934592 =
        .error (.generationNotImplemented 8589934592) ∧
      GeneratePrimitiveRoot 8 = .ok (NewFromRaw 18446744069397807105) :=
  ⟨(c7_generatePrimitiveRoot_amended 8589934592).1 ⟨33, rfl⟩ (by norm_num),
   (c7_generatePrimitiveRoot_amended 8).2.1 18446744069397807105 (by norm_num) rfl⟩

/-- Claim C9: `GeneratePrimitiveRoot` and `GetPrimitiveRoot` succeed on
exactly the same orders and return the same field element whenever they
succeed. -/
theorem c9_generate_get_agree (order r : Nat) :
    GetPrimitiveRoot order = .ok r ↔ GeneratePrimitiveRoot order = .ok r := by
  rw [getPrimitiveRoot_ok_iff, generatePrimitiveRoot_ok_iff]

/-- Claim C10: for order 0 the `n < order` range check fires for every `n`,
so `GetNthRootOfUnity 0 n` always reports the range error and never the
zero-order domain error. -/
theorem c10_getNthRootOfUnity_zero_order (n : Nat) :
    GetNthRootOfUnity 0 n = .error .nNotLessThanOrder := by
  unfold GetNthRootOfUnity
  rw [if_pos (Nat.zero_le n)]

/-- Claim C2 counterexample: at `order = 0` the predicate of the spec holds of
`One` (`1 ^ 0 = 1` and `0 ≤ 1`), yet `IsPrimitiveRootOfUnity One 0` returns
`false`, so the claimed equivalence over all `uint64` orders fails. -/
theorem c2_counterexample :
    IsPrimitiveRootOfUnity One 0 = false ∧
      One ^ (0 : Nat) % p = 1 ∧ (0 : Nat) ≤ 1 := by
  refine ⟨rfl, ?_, Nat.zero_le 1⟩
  exact Nat.mod_eq_of_lt one_lt_p

/-- Claim C2 (amended): `IsPrimitiveRootOfUnity element order` is `true` iff
`order` is a (nonzero) power of two, `element ^ order ≡ 1 (mod p)`, and
(`order ≤ 1` or `element ^ (order / 2) ≢ 1 (mod p)`); for `order = 0` and
non-power-of-two orders it returns `false` regardless of `element`. -/
theorem c2_isPrimitiveRootOfUnity_iff (element order : Nat)
    (h64 : order < 2 ^ 64) :
    IsPrimitiveRootOfUnity element order = true ↔
      ((∃ k, order = 2 ^ k) ∧ element ^ order % p = 1 ∧
        (order ≤ 1 ∨ element ^ (order / 2) % p ≠ 1)) := by
  by_cases h0 : order = 0
  · subst h0
    constructor
    · intro h
      simp [IsPrimitiveRootOfUnity] at h
    · rintro ⟨⟨k, hk⟩, -⟩
      exact absurd hk.symm (Nat.pos_pow_of_pos k (by norm_num)).ne'
  · by_cases hland : order &&& (order - 1) = 0
    · have hpow := (land_pred_eq_zero_iff h0).mp hland
      have hhalf : order / 2 < 2 ^ 64 := by omega
      unfold IsPrimitiveRootOfUnity One
      rw [if_neg h0, if_neg (not_not_intro hland),
        ModPow_eq _ _ h64, ModPow_eq _ _ hhalf]
      by_cases h1 : element ^ order % p = 1
      · rw [if_neg (not_not_intro h1)]
        by_cases hord1 : 1 < order
        · rw [if_pos hord1]
          by_cases h2 : element ^ (order / 2) % p = 1
          · rw [if_pos h2]
            constructor
            · intro h; cases h
            · rintro ⟨-, -, hor⟩
              rcases hor with hle | hne
              · omega
              · exact absurd h2 hne
          · rw [if_neg h2]
            exact ⟨fun _ => ⟨hpow, h1, Or.inr h2⟩, fun _ => rfl⟩
        · rw [if_neg hord1]
          exact ⟨fun _ => ⟨hpow, h1, Or.inl (by omega)⟩, fun _ => rfl⟩
      · rw [if_pos h1]
        constructor
        · intro h; cases h
        · rintro ⟨-, h1', -⟩
          exact absurd h1' h1
    · have hnp : ¬ ∃ k, order = 2 ^ k := fun hp =>
        hland ((land_pred_eq_zero_iff h0).mpr hp)
      unfold IsPrimitiveRootOfUnity
      rw [if_neg h0, if_pos hland]
      constructor
      · intro h; cases h
      · rintro ⟨hp, -⟩
        exact absurd hp hnp

theorem c2_witness :
    IsPrimitiveRootOfUnity 18446744069414584320 2 = true :=
  (c2_isPrimitiveRootOfUnity_iff 18446744069414584320 2 (by norm_num)).mpr
    ⟨⟨1, rfl⟩, by decide, Or.inr (by decide)⟩

/-- Claim C4 counterexample: the public wrapper `PrimitiveRootOfUnity`
substitutes the default `Zero` element for the invalid order 3 instead of
signaling the domain error that `GetPrimitiveRoot` reports. -/
theorem c4_counterexample :
    PrimitiveRootOfUnity 3 = Zero ∧
      GetPrimitiveRoot 3 = .error (.notPowerOfTwo 3) := ⟨rfl, rfl⟩

/-- Claim C4 (amended): every fallible registry operation with an error
channel propagates failure — a derived operation only succeeds when its
underlying lookup succeeded, and yields the documented function of that
result — while the convenience wrapper `PrimitiveRootOfUnity` substitutes
`Zero` exactly when `GetPrimitiveRoot` fails. -/
theorem c4_error_propagation (order n : Nat) :
    (∀ v, GetInversePrimitiveRoot order = .ok v →
      ∃ r, GetPrimitiveRoot order = .ok r ∧ v = Inverse r) ∧
    (∀ v, GetNthRootOfUnity order n = .ok v →
      n < order ∧ ∃ r, GetPrimitiveRoot order = .ok r ∧ v = ModPow r n) ∧
    (∀ v, GetInverseNthRootOfUnity order n = .ok v →
      ∃ r, GetNthRootOfUnity order n = .ok r ∧ v = Inverse r) ∧
    (PrimitiveRootOfUnity order = Zero ↔
      ∃ e, GetPrimitiveRoot order = .error e) := by
  refine ⟨?_, ?_, ?_, ?_⟩
  · intro v hv
    unfold GetInversePrimitiveRoot at hv
    cases h : GetPrimitiveRoot order with
    | error e => rw [h] at hv; cases hv
    | ok root =>
      rw [h] at hv
      exact ⟨root, rfl, by simpa [eq_comm] using hv⟩
  · intro v hv
    unfold GetNthRootOfUnity at hv
    by_cases hn : order ≤ n
    · rw [if_pos hn] at hv; cases hv
    · rw [if_neg hn] at hv
      cases h : GetPrimitiveRoot order with
      | error e => rw [h] at hv; cases hv
      | ok root =>
        rw [h] at hv
        exact ⟨by omega, root, rfl, by simpa [eq_comm] using hv⟩
  · intro v hv
    unfold GetInverseNthRootOfUnity at hv
    cases h : GetNthRootOfUnity order n with
    | error e => rw [h] at hv; cases hv
    | ok root =>
      rw [h] at hv
      exact ⟨root, rfl, by simpa [eq_comm] using hv⟩
  · constructor
    · intro hz
      unfold PrimitiveRootOfUnity at hz
      cases h : GetPrimitiveRoot order with
      | error e => exact ⟨e, rfl⟩
      | ok root =>
        rw [h] at hz
        obtain ⟨-, -, root0, hlook, hr⟩ := (getPrimitiveRoot_ok_iff order root).mp h
        exact absurd (hr ▸ hz) (table_roots_ne_zero (order, root0) (lookup_mem hlook))
    · rintro ⟨e, he⟩
      unfold PrimitiveRootOfUnity
      rw [he]

theorem c4_witness :
    PrimitiveRootOfUnity 3 = Zero ∧
      (2 < 4 ∧ ∃ r, GetPrimitiveRoot 4 = .ok r ∧
        ModPow (NewFromRaw 281474976710656) 2 = ModPow r 2) :=
  ⟨(c4_error_propagation 3 0).2.2.2.mpr ⟨.notPowerOfTwo 3, rfl⟩,
   (c4_error_propagation 4 2).2.1 (ModPow (NewFromRaw 281474976710656) 2) rfl⟩

/-- Claim C8 counterexample: the `PrimitiveRoots` table contains the key 0,
which is neither a power of two nor within the claimed bound `1 ≤ key`. -/
theorem c8_counterexample :
    (0, 1) ∈ PrimitiveRootsList ∧ ¬ (1 ≤ (0 : Nat)) := by
  exact ⟨by decide, by omega⟩

/-- Claim C8 (amended): every key of the `PrimitiveRoots` table is either the
(unreachable) key 0 or a power of two with `1 ≤ key ≤ 2^32`. -/
theorem c8_table_keys_amended (ord root : Nat)
    (h : (ord, root) ∈ PrimitiveRootsList) :
    ord = 0 ∨ (1 ≤ ord ∧ ord ≤ 2 ^ 32 ∧ ∃ k, ord = 2 ^ k) := by
  by_cases h0 : ord = 0
  · exact Or.inl h0
  · refine Or.inr ⟨by omega, table_keys_le (ord, root) h, ?_⟩
    exact (land_pred_eq_zero_iff h0).mp (table_keys_pow2 (ord, root) h h0)

theorem c8_witness :
    (2 : Nat) = 0 ∨ (1 ≤ 2 ∧ 2 ≤ 2 ^ 32 ∧ ∃ k, (2 : Nat) = 2 ^ k) :=
  c8_table_keys_amended 2 18446744069414584320 (by decide)

end TitanCrypt
